import Mathlib

/-!
Verification of the header-cutting core of `src/cactus/preprocessor/cutHeaders.py`.

Strings are modelled as `List Char`, Python `None`/absent string parameters as
`[]` (both are falsy and behave identically in every code path modelled here),
and the optional integer `cutBeforeOcc` as `Option Int` (Python `None` ↦ `none`).
Fallible functions return `Except PyErr`.
-/

/-- Python exceptions that the modelled code can raise.  `nameError` models a
lookup of an unbound variable name, `runtimeError` a `RuntimeError(msg)`,
`indexError` an out-of-range list subscript. -/
inductive PyErr where
  | nameError (name : List Char)
  | runtimeError (msg : List Char)
  | indexError
  deriving Repr, DecidableEq

/-- Python list subscript `l[i]` with negative-index-from-the-end semantics;
`none` means `IndexError`. -/
def pyIndex (l : List α) (i : Int) : Option α :=
  if 0 ≤ i then l[i.toNat]?
  else if 0 ≤ (l.length : Int) + i then l[((l.length : Int) + i).toNat]?
  else none

/-- Python `header.find(c)` for a single character: index of the first
occurrence, `-1` if absent. -/
def pyFind (s : List Char) (c : Char) : Int :=
  match s.findIdx? (fun x => x = c) with
  | some i => (i : Int)
  | none => -1

/-- The occurrence scan of `cut_header`:
`occs = [i for i, c in enumerate(header) if c in cutBefore]`. -/
def occsOf (header cutBefore : List Char) : List Nat :=
  (header.enum.filter (fun p => p.2 ∈ cutBefore)).map Prod.fst

/-- The `if cutBefore:` block of `cut_header` (cutHeaders.py lines 65-76).
`cutBeforeOcc = none` models Python `None`; `if not cutBeforeOcc` is Python
truthiness, so `some 0` also selects the last occurrence. -/
def cut_before_step (header cutBefore : List Char) (cutBeforeOcc : Option Int) :
    Except PyErr (List Char) :=
  if cutBefore = [] then .ok header
  else if occsOf header cutBefore = [] then .ok header
  else
    match
      (match cutBeforeOcc with
        | none => pyIndex (occsOf header cutBefore) (-1)
        | some occ =>
          if occ = 0 then pyIndex (occsOf header cutBefore) (-1)
          else pyIndex (occsOf header cutBefore)
            (min ((occsOf header cutBefore).length : Int) occ - 1)) with
    | none => .error .indexError
    | some pos =>
      if 0 ≤ (pos : Int) then
        if (pos : Int) < (header.length : Int) - 1 then .ok (header.drop (pos + 1))
        else .ok []
      else .ok header

/-- The `if cutAfter:` block of `cut_header` (cutHeaders.py lines 77-81):
`pos_list = [header.find(c) for c in cutAfter if header.find(c) >= 0]`,
then truncate at `min(pos_list)` when non-empty. -/
def posListOf (header cutAfter : List Char) : List Int :=
  (cutAfter.filter (fun c => 0 ≤ pyFind header c)).map (fun c => pyFind header c)

/-- continuing `cut_after_step`: truncate at `min(pos_list)` when non-empty. -/
def cut_after_step (header cutAfter : List Char) : List Char :=
  if cutAfter = [] then header
  else
    match (posListOf header cutAfter).min? with
    | some pos => header.take pos.toNat
    | none => header

/-- `cut_header` (cutHeaders.py lines 64-86).  When the fully cut header is
empty the source executes
`raise RuntimeError("...".format(seq_record.description))`, but `seq_record`
is not in scope inside `cut_header` (it is a local of the callers only), so
evaluating the argument raises `NameError: name 'seq_record' is not defined`
before the `RuntimeError` can be constructed. -/
def cut_header (header cutBefore : List Char) (cutBeforeOcc : Option Int)
    (cutAfter : List Char) : Except PyErr (List Char) :=
  match cut_before_step header cutBefore cutBeforeOcc with
  | .error e => .error e
  | .ok h1 =>
    let h2 := cut_after_step h1 cutAfter
    if h2 = [] then .error (.nameError ("seq_record".toList))
    else .ok h2

/-- Characters of Python `str.rstrip()`'s default whitespace set. -/
def pyIsSpace (c : Char) : Bool :=
  c = ' ' || c = '\t' || c = '\n' || c = '\x0b' || c = '\x0c' || c = '\r'

/-- Python `line.rstrip()`. -/
def pyRstrip (s : List Char) : List Char :=
  (s.reverse.dropWhile pyIsSpace).reverse

/-- Python `s.split('\t')`: splits at every tab; never returns the empty
list (the empty string splits to `[""]`). -/
def splitTab (s : List Char) : List (List Char) :=
  match s with
  | [] => [[]]
  | c :: rest =>
    if c = '\t' then [] :: splitTab rest
    else
      match splitTab rest with
      | [] => [[c]]
      | t :: ts => (c :: t) :: ts

/-- The first tab-separated field of a (rstripped) table line: `toks[0]`. -/
def firstField (line : List Char) : List Char :=
  (splitTab (pyRstrip line)).headD []

/-- The duplicate-header message of `join_header_table` (line 145), with the
offending `toks[0]` value interpolated. -/
def dupMsg (h : List Char) : List Char :=
  "Error: fasta header ".toList ++ h ++
    " found in more than one sample.  Headers must be unique to make table".toList

/-- The uniqueness loop of `join_header_table` (lines 138-146): for each line,
tokenize by tab after rstrip; skip empty token lists (`if toks:`); error when
`toks[0]` was already seen, else record it.  The Python `set` is modelled by
the list of values seen so far. -/
def join_check : List (List Char) → List (List Char) → Except PyErr Unit
  | [], _ => .ok ()
  | line :: rest, seen =>
    match splitTab (pyRstrip line) with
    | [] => join_check rest seen
    | t0 :: _ =>
      if t0 ∈ seen then .error (.runtimeError (dupMsg t0))
      else join_check rest (t0 :: seen)

/-- `join_header_table` (lines 134-148): concatenate the per-sample tables
(`catFiles`), run the uniqueness check over the concatenated lines, and return
the concatenated table on success.  A table file is modelled as its list of
lines (without the trailing newline each written row carries). -/
def join_header_table (tables : List (List (List Char))) :
    Except PyErr (List (List Char)) :=
  match join_check tables.flatten [] with
  | .error e => .error e
  | .ok _ => .ok tables.flatten

/-- A fasta record as used by the table builder: its header
(`seq_record.description`) and its sequence length (`len(seq_record.seq)`). -/
structure Record where
  description : List Char
  seqLen : Nat
  deriving Repr, DecidableEq

/-- One written table row (line 131):
`'\x7b\x7d\t\x7b\x7d\t\x7b\x7d\t\x7b\x7d\n'.format(description, header, event, len)`,
without the trailing newline. -/
def rowLine (orig cut event : List Char) (seqLen : Nat) : List Char :=
  orig ++ '\t' :: cut ++ '\t' :: event ++ '\t' :: (Nat.repr seqLen).toList

/-- `make_one_header_table` (lines 123-132): one row per record; the cutter
runs only under `if cut_before or cut_after:`, otherwise the written header is
the original description. -/
def make_one_header_table (records : List Record) (event : List Char)
    (cut_before : List Char) (cut_before_occ : Option Int) (cut_after : List Char) :
    Except PyErr (List (List Char)) :=
  match records with
  | [] => .ok []
  | r :: rs =>
    match
      (if cut_before ≠ [] ∨ cut_after ≠ [] then
        cut_header r.description cut_before cut_before_occ cut_after
      else .ok r.description) with
    | .error e => .error e
    | .ok header =>
      match make_one_header_table rs event cut_before cut_before_occ cut_after with
      | .error e => .error e
      | .ok rest => .ok (rowLine r.description header event r.seqLen :: rest)

/-- The fan-out of `make_cut_header_table` (lines 112-119): one
`make_one_header_table` child per `(fasta, event)` pair; any child failure
aborts the whole construction. -/
def make_all_tables (samples : List (List Record × List Char))
    (cut_before : List Char) (cut_before_occ : Option Int) (cut_after : List Char) :
    Except PyErr (List (List (List Char))) :=
  match samples with
  | [] => .ok []
  | s :: rest =>
    match make_one_header_table s.1 s.2 cut_before cut_before_occ cut_after with
    | .error e => .error e
    | .ok t =>
      match make_all_tables rest cut_before cut_before_occ cut_after with
      | .error e => .error e
      | .ok ts => .ok (t :: ts)

instance {ε α : Type} [DecidableEq ε] [DecidableEq α] : DecidableEq (Except ε α) :=
  fun a b =>
    match a, b with
    | .ok x, .ok y =>
      if h : x = y then .isTrue (by rw [h]) else .isFalse (by simp [h])
    | .error x, .error y =>
      if h : x = y then .isTrue (by rw [h]) else .isFalse (by simp [h])
    | .ok _, .error _ => .isFalse (by simp)
    | .error _, .ok _ => .isFalse (by simp)

example : cut_header "HG02055#1#h1tg000001l".toList "#".toList none [] =
    .ok "h1tg000001l".toList := by decide
example : cut_header "HG02055#1#h1tg000001l#EBV".toList "#".toList (some 2) [] =
    .ok "h1tg000001l#EBV".toList := by decide
example : cut_header "chr1  AC:CM000663.2".toList [] none " ".toList =
    .ok "chr1".toList := by decide
example : cut_header "X".toList "X".toList none [] =
    .error (.nameError "seq_record".toList) := by decide
example : cut_header "chr1".toList "z".toList none [] = .ok "chr1".toList := by decide

/-! Helper lemmas about the embedded operations. -/

theorem occsOf_lt {header cutBefore : List Char} {p : Nat}
    (h : p ∈ occsOf header cutBefore) : p < header.length := by
  unfold occsOf at h
  rcases List.mem_map.mp h with ⟨x, hx, rfl⟩
  have hx2 := List.mem_of_mem_filter hx
  have hg := List.mem_enum_iff_getElem?.mp hx2
  exact (List.getElem?_eq_some_iff.mp hg).1

theorem occsOf_eq_nil {header cutBefore : List Char}
    (h : ∀ c ∈ header, c ∉ cutBefore) : occsOf header cutBefore = [] := by
  unfold occsOf
  rw [List.filter_eq_nil_iff.mpr, List.map_nil]
  intro x hx
  have hmem : x.2 ∈ header := List.getElem?_mem (List.mem_enum_iff_getElem?.mp hx)
  simpa using h x.2 hmem

theorem pyIndex_neg_one {l : List Nat} (h : l ≠ []) :
    pyIndex l (-1) = some (l.getLast h) := by
  have hlen : 1 ≤ l.length := List.length_pos.mpr h
  unfold pyIndex
  rw [if_neg (by omega), if_pos (by omega)]
  have ht : ((l.length : Int) + (-1)).toNat = l.length - 1 := by omega
  rw [ht, ← List.getLast?_eq_getElem?, List.getLast?_eq_getLast l h]

theorem pyIndex_nonneg {l : List Nat} {i : Int} (h : 0 ≤ i) :
    pyIndex l i = l[i.toNat]? := by
  unfold pyIndex
  rw [if_pos h]

theorem pyFind_eq_neg_one {s : List Char} {c : Char} (h : c ∉ s) : pyFind s c = -1 := by
  unfold pyFind
  have hn : s.findIdx? (fun x => x = c) = none := by
    rw [List.findIdx?_eq_none_iff]
    intro x hx
    simp only [decide_eq_false_iff_not]
    rintro rfl
    exact h hx
  rw [hn]

theorem posListOf_eq_nil {header cutAfter : List Char}
    (h : ∀ c ∈ cutAfter, c ∉ header) : posListOf header cutAfter = [] := by
  unfold posListOf
  rw [List.filter_eq_nil_iff.mpr, List.map_nil]
  intro c hc
  have hne : pyFind header c = -1 := pyFind_eq_neg_one (h c hc)
  simp [hne]

theorem cut_tail_branch (header : List Char) (pos : Nat) (hlt : pos < header.length) :
    (if (pos : Int) < (header.length : Int) - 1 then
        (Except.ok (header.drop (pos + 1)) : Except PyErr (List Char))
      else .ok []) = .ok (header.drop (pos + 1)) := by
  split
  · rfl
  · rename_i hn
    rw [List.drop_eq_nil_of_le (by omega)]

/-! The claims. -/

/-- C3: when the cutting steps reduce the header to the empty string, the
spec requires a data-validation error whose message identifies the original
header; the code instead evaluates `seq_record.description` in the error
message, and `seq_record` is not a variable in scope inside `cut_header`, so
the call dies with `NameError: name 'seq_record' is not defined` — an error
that does not mention the offending header at all. -/
theorem cut_header_empty_result_raises_nameError :
    cut_header "X".toList "X".toList none [] =
      .error (.nameError "seq_record".toList) ∧
    ∀ msg, PyErr.nameError "seq_record".toList ≠ .runtimeError msg := by
  refine ⟨by decide, ?_⟩
  intro msg h
  cases h

/-- C5 (counterexample): the claim quantifies over every header `h`, but at
the empty header the code raises (the empty-header branch fires even though
no cutting happened), so `cut("", "", None, "")` is not `""`. -/
theorem cut_header_empty_params_not_id_on_empty_header :
    cut_header [] [] none [] ≠ .ok [] := by decide

/-- C5 (amended): for every non-empty header `h`, cutting with empty
`cutBefore` and `cutAfter` and unset occurrence index returns `h`
unchanged. -/
theorem cut_header_empty_params_id (h : List Char) (hne : h ≠ []) :
    cut_header h [] none [] = .ok h := by
  unfold cut_header cut_before_step cut_after_step
  simp [hne]

theorem cut_header_empty_params_id_witness :
    "chr1".toList ≠ [] ∧ cut_header "chr1".toList [] none [] = .ok "chr1".toList :=
  ⟨by decide, cut_header_empty_params_id "chr1".toList (by decide)⟩

/-- C7: with all cut parameters absent, `make_one_header_table` never invokes
the cutter: it always succeeds, and every emitted row carries the original
header in both the `original_header` and the `cut_header` column — even for
records whose headers would trim to empty. -/
theorem make_one_header_table_no_cut (records : List Record) (event : List Char)
    (occ : Option Int) :
    make_one_header_table records event [] occ [] =
      .ok (records.map (fun r => rowLine r.description r.description event r.seqLen)) := by
  induction records with
  | nil => rfl
  | cons r rs ih =>
    unfold make_one_header_table
    simp [ih]

/-- C8: a non-empty header containing no character of `cutBefore` and none of
`cutAfter` is returned unchanged without error; hence a second application of
the cutter with the same parameters to an already-cut header with no further
matching characters yields the same header (the spec example
`cut("chr1", "z", None, "")` is the second conjunct). -/
theorem cut_header_no_match_unchanged (header cutBefore cutAfter : List Char)
    (occ : Option Int) (hne : header ≠ [])
    (hcb : ∀ c ∈ header, c ∉ cutBefore) (hca : ∀ c ∈ header, c ∉ cutAfter) :
    cut_header header cutBefore occ cutAfter = .ok header ∧
    cut_header "chr1".toList "z".toList none [] = .ok "chr1".toList := by
  refine ⟨?_, by decide⟩
  have hbs : cut_before_step header cutBefore occ = .ok header := by
    unfold cut_before_step
    by_cases hc : cutBefore = []
    · rw [if_pos hc]
    · rw [if_neg hc, if_pos (occsOf_eq_nil hcb)]
  have has : cut_after_step header cutAfter = header := by
    unfold cut_after_step
    by_cases hc : cutAfter = []
    · rw [if_pos hc]
    · rw [if_neg hc, posListOf_eq_nil (fun c hc1 hc2 => hca c hc2 hc1), List.min?_nil]
  unfold cut_header
  rw [hbs]
  simp [has, hne]

theorem cut_header_no_match_unchanged_witness :
    "h1tg000001l".toList ≠ [] ∧
    (∀ c ∈ "h1tg000001l".toList, c ∉ "#".toList) ∧
    (∀ c ∈ "h1tg000001l".toList, c ∉ ([] : List Char)) ∧
    (cut_header "h1tg000001l".toList "#".toList none [] = .ok "h1tg000001l".toList ∧
      cut_header "chr1".toList "z".toList none [] = .ok "chr1".toList) :=
  ⟨by decide, by decide, by decide,
    cut_header_no_match_unchanged "h1tg000001l".toList "#".toList [] none
      (by decide) (by decide) (by decide)⟩


theorem cut_before_reduce (header cutBefore : List Char) (occB : Option Int) (pos : Nat)
    (hcb : cutBefore ≠ []) (hocc : occsOf header cutBefore ≠ [])
    (hsel : (match occB with
      | none => pyIndex (occsOf header cutBefore) (-1)
      | some occ =>
        if occ = 0 then pyIndex (occsOf header cutBefore) (-1)
        else pyIndex (occsOf header cutBefore)
          (min ((occsOf header cutBefore).length : Int) occ - 1)) = some pos)
    (hlt : pos < header.length) :
    cut_before_step header cutBefore occB = .ok (header.drop (pos + 1)) := by
  unfold cut_before_step
  rw [if_neg hcb, if_neg hocc, hsel]
  show (if 0 ≤ (pos : Int) then
      if (pos : Int) < (header.length : Int) - 1 then Except.ok (header.drop (pos + 1))
      else Except.ok []
    else Except.ok header) = Except.ok (header.drop (pos + 1))
  rw [if_pos (Int.natCast_nonneg pos)]
  exact cut_tail_branch header pos hlt

/-- C1: with a non-empty `cutBefore`, at least one matching character in the
header, and an unset/falsy `cutBeforeOcc` (Python `None` or `0`), the
cut-before phase removes the prefix up to and including the last matching
occurrence; the spec's example on the full function is the second conjunct. -/
theorem cut_before_last_occurrence (header cutBefore : List Char) (occ : Option Int)
    (hcb : cutBefore ≠ []) (hfalsy : occ = none ∨ occ = some 0)
    (hocc : occsOf header cutBefore ≠ []) :
    cut_before_step header cutBefore occ =
      .ok (header.drop ((occsOf header cutBefore).getLast hocc + 1)) ∧
    cut_header "HG02055#1#h1tg000001l".toList "#".toList none [] =
      .ok "h1tg000001l".toList := by
  refine ⟨?_, by decide⟩
  have hlast : (occsOf header cutBefore).getLast hocc < header.length :=
    occsOf_lt (List.getLast_mem hocc)
  apply cut_before_reduce header cutBefore occ _ hcb hocc _ hlast
  rcases hfalsy with rfl | rfl
  · exact pyIndex_neg_one hocc
  · exact pyIndex_neg_one hocc

theorem cut_before_last_occurrence_witness :
    "#".toList ≠ [] ∧
    ((none : Option Int) = none ∨ (none : Option Int) = some 0) ∧
    occsOf "a#b#c".toList "#".toList ≠ [] ∧
    (cut_before_step "a#b#c".toList "#".toList none =
        .ok ("a#b#c".toList.drop
          ((occsOf "a#b#c".toList "#".toList).getLast (by decide) + 1)) ∧
      cut_header "HG02055#1#h1tg000001l".toList "#".toList none [] =
        .ok "h1tg000001l".toList) :=
  ⟨by decide, Or.inl rfl, by decide,
    cut_before_last_occurrence "a#b#c".toList "#".toList none
      (by decide) (Or.inl rfl) (by decide)⟩

/-- C2: with a non-empty `cutBefore`, at least one matching character, and an
explicitly set positive `cutBeforeOcc`, the cut-before phase cuts strictly
after the occurrence with 1-based index `min(count, cutBeforeOcc)` — the
requested occurrence clamped to the last existing match; the spec's example
on the full function is the second conjunct. -/
theorem cut_before_occ_clamped (header cutBefore : List Char) (occ : Int)
    (hcb : cutBefore ≠ []) (hocc : occsOf header cutBefore ≠ [])
    (hpos : 1 ≤ occ) :
    cut_before_step header cutBefore (some occ) =
      .ok (header.drop ((occsOf header cutBefore).getD
        (min (occsOf header cutBefore).length occ.toNat - 1) 0 + 1)) ∧
    cut_header "HG02055#1#h1tg000001l#EBV".toList "#".toList (some 2) [] =
      .ok "h1tg000001l#EBV".toList := by
  refine ⟨?_, by decide⟩
  have hlen : 1 ≤ (occsOf header cutBefore).length := List.length_pos.mpr hocc
  have hne0 : occ ≠ 0 := by omega
  have hlt : min (occsOf header cutBefore).length occ.toNat - 1 <
      (occsOf header cutBefore).length := by omega
  have hmem : (occsOf header cutBefore).getD
      (min (occsOf header cutBefore).length occ.toNat - 1) 0 ∈
      occsOf header cutBefore := by
    rw [List.getD_eq_getElem _ 0 hlt]
    exact List.getElem_mem hlt
  apply cut_before_reduce header cutBefore (some occ) _ hcb hocc _ (occsOf_lt hmem)
  show (if occ = 0 then pyIndex (occsOf header cutBefore) (-1)
    else pyIndex (occsOf header cutBefore)
      (min ((occsOf header cutBefore).length : Int) occ - 1)) = _
  rw [if_neg hne0, pyIndex_nonneg (by omega)]
  have hidx : (min ((occsOf header cutBefore).length : Int) occ - 1).toNat =
      min (occsOf header cutBefore).length occ.toNat - 1 := by omega
  rw [hidx, List.getElem?_eq_getElem hlt, List.getD_eq_getElem _ 0 hlt]

theorem cut_before_occ_clamped_witness :
    "#".toList ≠ [] ∧
    occsOf "a#b#c".toList "#".toList ≠ [] ∧
    (1 : Int) ≤ 5 ∧
    (cut_before_step "a#b#c".toList "#".toList (some 5) =
        .ok ("a#b#c".toList.drop ((occsOf "a#b#c".toList "#".toList).getD
          (min (occsOf "a#b#c".toList "#".toList).length (Int.toNat 5) - 1) 0 + 1)) ∧
      cut_header "HG02055#1#h1tg000001l#EBV".toList "#".toList (some 2) [] =
        .ok "h1tg000001l#EBV".toList) :=
  ⟨by decide, by decide, by decide,
    cut_before_occ_clamped "a#b#c".toList "#".toList 5 (by decide) (by decide) (by decide)⟩

instance : Std.Antisymm (fun (a b : Int) => a ≤ b) where
  antisymm h1 h2 := le_antisymm h1 h2

theorem int_min?_eq_some_iff {l : List Int} {a : Int} :
    l.min? = some a ↔ a ∈ l ∧ ∀ b ∈ l, a ≤ b :=
  List.min?_eq_some_iff (fun a => le_refl a) (fun a b => min_choice a b)
    (fun _ _ _ => le_min_iff)

/-- C4: with a non-empty `cutAfter`, the cut-after phase truncates the header
to everything strictly before the earliest position holding any character of
`cutAfter`, and leaves it unchanged when no such character occurs; the spec's
example on the full function is the second conjunct. -/
theorem cut_after_first_any (header cutAfter : List Char) (hca : cutAfter ≠ []) :
    cut_after_step header cutAfter =
      (match header.findIdx? (fun c => decide (c ∈ cutAfter)) with
        | some j => header.take j
        | none => header) ∧
    cut_header "chr1  AC:CM000663.2".toList [] none " ".toList = .ok "chr1".toList := by
  refine ⟨?_, by decide⟩
  cases hfi : header.findIdx? (fun c => decide (c ∈ cutAfter)) with
  | none =>
    have hnone : ∀ x ∈ header, x ∉ cutAfter := by
      intro x hx
      simpa using List.findIdx?_eq_none_iff.mp hfi x hx
    have hpl : posListOf header cutAfter = [] :=
      posListOf_eq_nil (fun c hc hmem => hnone c hmem hc)
    unfold cut_after_step
    rw [if_neg hca, hpl, List.min?_nil]
  | some j =>
    obtain ⟨hj, hpj, hmin⟩ := List.findIdx?_eq_some_iff_getElem.mp hfi
    have hjmem : header[j] ∈ cutAfter := by simpa using hpj
    have hfind0 : header.findIdx? (fun x => x = header[j]) = some j := by
      rw [List.findIdx?_eq_some_iff_getElem]
      refine ⟨hj, by simp, ?_⟩
      intro k hk
      have hknot := hmin k hk
      simp only [decide_eq_true_eq] at hknot ⊢
      intro hkc
      exact hknot (by rw [hkc]; exact hjmem)
    have hpf0 : pyFind header header[j] = (j : Int) := by
      unfold pyFind
      rw [hfind0]
    have hjin : (j : Int) ∈ posListOf header cutAfter := by
      unfold posListOf
      refine List.mem_map.mpr ⟨header[j], List.mem_filter.mpr ⟨hjmem, ?_⟩, hpf0⟩
      rw [hpf0]
      simp
    have hlb : ∀ x ∈ posListOf header cutAfter, (j : Int) ≤ x := by
      intro x hx
      unfold posListOf at hx
      rcases List.mem_map.mp hx with ⟨c, hcf, rfl⟩
      rcases List.mem_filter.mp hcf with ⟨hcmem, hcpos⟩
      have hcpos' : 0 ≤ pyFind header c := by simpa using hcpos
      cases hfc : header.findIdx? (fun x => x = c) with
      | none =>
        exfalso
        have hm1 : pyFind header c = -1 := by
          unfold pyFind
          rw [hfc]
        rw [hm1] at hcpos'
        omega
      | some i =>
        have hval : pyFind header c = (i : Int) := by
          unfold pyFind
          rw [hfc]
        rw [hval]
        obtain ⟨hi, hpi, _⟩ := List.findIdx?_eq_some_iff_getElem.mp hfc
        have hci : header[i] = c := by simpa using hpi
        by_contra hgt
        push_neg at hgt
        have hilt : i < j := by exact_mod_cast hgt
        have := hmin i hilt
        simp only [decide_eq_true_eq] at this
        exact this (hci ▸ hcmem)
    have hm : (posListOf header cutAfter).min? = some (j : Int) :=
      int_min?_eq_some_iff.mpr ⟨hjin, hlb⟩
    unfold cut_after_step
    rw [if_neg hca, hm]
    show header.take ((j : Int)).toNat = header.take j
    rw [Int.toNat_natCast]

theorem cut_after_first_any_witness :
    " ".toList ≠ [] ∧
    (cut_after_step "chr1  AC:CM000663.2".toList " ".toList =
      (match "chr1  AC:CM000663.2".toList.findIdx?
          (fun c => decide (c ∈ " ".toList)) with
        | some j => "chr1  AC:CM000663.2".toList.take j
        | none => "chr1  AC:CM000663.2".toList) ∧
      cut_header "chr1  AC:CM000663.2".toList [] none " ".toList = .ok "chr1".toList) :=
  ⟨by decide, cut_after_first_any "chr1  AC:CM000663.2".toList " ".toList (by decide)⟩

theorem splitTab_ne_nil (s : List Char) : splitTab s ≠ [] := by
  match s with
  | [] => simp [splitTab]
  | c :: rest =>
    simp only [splitTab]
    split
    · simp
    · split <;> simp

theorem join_check_cons (line : List Char) (rest seen : List (List Char))
    (t0 : List Char) (ts : List (List Char))
    (hsp : splitTab (pyRstrip line) = t0 :: ts) :
    join_check (line :: rest) seen =
      if t0 ∈ seen then .error (.runtimeError (dupMsg t0))
      else join_check rest (t0 :: seen) := by
  show (match splitTab (pyRstrip line) with
    | [] => join_check rest seen
    | t0 :: _ =>
      if t0 ∈ seen then .error (.runtimeError (dupMsg t0))
      else join_check rest (t0 :: seen)) = _
  rw [hsp]

theorem join_check_ok (lines : List (List Char)) (seen : List (List Char))
    (hnd : (lines.map firstField).Nodup)
    (hdisj : ∀ f ∈ lines.map firstField, f ∉ seen) :
    join_check lines seen = .ok () := by
  induction lines generalizing seen with
  | nil => rfl
  | cons line rest ih =>
    cases hsp : splitTab (pyRstrip line) with
    | nil => exact absurd hsp (splitTab_ne_nil _)
    | cons t0 ts =>
      have ht0 : firstField line = t0 := by
        simp [firstField, hsp]
      rw [join_check_cons line rest seen t0 ts hsp,
        if_neg (ht0 ▸ hdisj (firstField line) (by simp))]
      simp only [List.map_cons, List.nodup_cons] at hnd
      refine ih _ hnd.2 ?_
      intro f hf
      simp only [List.mem_cons, not_or]
      refine ⟨fun he => hnd.1 ?_, hdisj f (by simp [hf])⟩
      rw [ht0, ← he]
      exact hf

theorem join_check_error (lines : List (List Char)) (seen : List (List Char))
    (hbad : ¬ (lines.map firstField).Nodup ∨ ∃ f ∈ lines.map firstField, f ∈ seen) :
    ∃ g, join_check lines seen = .error (.runtimeError (dupMsg g)) := by
  induction lines generalizing seen with
  | nil =>
    rcases hbad with h | ⟨f, hf, _⟩
    · exact absurd List.nodup_nil h
    · simp at hf
  | cons line rest ih =>
    cases hsp : splitTab (pyRstrip line) with
    | nil => exact absurd hsp (splitTab_ne_nil _)
    | cons t0 ts =>
      have ht0 : firstField line = t0 := by
        simp [firstField, hsp]
      rw [join_check_cons line rest seen t0 ts hsp]
      by_cases hseen : t0 ∈ seen
      · exact ⟨t0, by rw [if_pos hseen]⟩
      · rw [if_neg hseen]
        refine ih _ ?_
        simp only [List.map_cons, ht0, List.nodup_cons, not_and_or, not_not] at hbad
        rcases hbad with (h | h) | ⟨f, hf, hfseen⟩
        · exact Or.inr ⟨t0, h, by simp⟩
        · exact Or.inl h
        · rcases List.mem_cons.mp hf with rfl | hfr
          · exact absurd hfseen hseen
          · exact Or.inr ⟨f, hfr, by simp [hfseen]⟩

theorem join_header_table_of_ok (tables : List (List (List Char)))
    (t : List (List Char)) (h : join_header_table tables = .ok t) :
    t = tables.flatten := by
  unfold join_header_table at h
  cases hc : join_check tables.flatten [] with
  | error e =>
    rw [hc] at h
    cases h
  | ok u =>
    rw [hc] at h
    cases h
    rfl

/-- C6: the join step validates global uniqueness of the first field over the
concatenated table: when no `original_header` repeats, it succeeds and
returns the concatenation; and whenever two sample tables each contain a row
with the same `original_header`, it fails with the fatal duplicate-header
`RuntimeError`, whose message names the offending header, instead of silently
merging. -/
theorem join_header_table_uniqueness (t1 t2 : List (List Char))
    (tables : List (List (List Char))) :
    ((tables.flatten.map firstField).Nodup →
        join_header_table tables = .ok tables.flatten) ∧
    (∀ a ∈ t1, ∀ b ∈ t2, firstField a = firstField b →
        ∃ g, join_header_table [t1, t2] = .error (.runtimeError (dupMsg g))) := by
  constructor
  · intro hnd
    unfold join_header_table
    rw [join_check_ok tables.flatten [] hnd (by simp)]
  · intro a ha b hb heq
    have hflat : ([t1, t2] : List (List (List Char))).flatten = t1 ++ t2 := by simp
    have hnotnd : ¬ (((t1 ++ t2).map firstField).Nodup) := by
      rw [List.map_append, List.nodup_append]
      intro ⟨_, _, hdisj⟩
      exact hdisj (List.mem_map_of_mem firstField ha)
        (heq ▸ List.mem_map_of_mem firstField hb)
    obtain ⟨g, hg⟩ := join_check_error (t1 ++ t2) [] (Or.inl hnotnd)
    refine ⟨g, ?_⟩
    unfold join_header_table
    rw [hflat, hg]

theorem join_header_table_uniqueness_witness :
    join_header_table [["A\tx\te\t3".toList], ["B\ty\tf\t4".toList]] =
      .ok [["A\tx\te\t3".toList], ["B\ty\tf\t4".toList]].flatten ∧
    ∃ g, join_header_table [["A\tx\te\t3".toList], ["A\ty\tf\t4".toList]] =
      .error (.runtimeError (dupMsg g)) :=
  ⟨(join_header_table_uniqueness [] []
      [["A\tx\te\t3".toList], ["B\ty\tf\t4".toList]]).1 (by decide),
    (join_header_table_uniqueness ["A\tx\te\t3".toList] ["A\ty\tf\t4".toList] []).2
      "A\tx\te\t3".toList (by decide) "A\ty\tf\t4".toList (by decide) (by decide)⟩

/-- C10: the join's uniqueness check compares only the first tab-separated
field of each row — two rows with equal first fields are rejected even when
they differ in every later column and sit in the same sample's table, and two
rows with distinct first fields pass even if otherwise identical. -/
theorem join_check_compares_first_field_only (a b : List Char) :
    (firstField a = firstField b →
      join_header_table [[a, b]] =
        .error (.runtimeError (dupMsg (firstField a)))) ∧
    (firstField a ≠ firstField b → join_header_table [[a, b]] = .ok [a, b]) := by
  have hflat : ([[a, b]] : List (List (List Char))).flatten = [a, b] := by simp
  obtain ⟨s0, ss, hsa⟩ : ∃ s0 ss, splitTab (pyRstrip a) = s0 :: ss := by
    cases hsa : splitTab (pyRstrip a) with
    | nil => exact absurd hsa (splitTab_ne_nil _)
    | cons s0 ss => exact ⟨s0, ss, rfl⟩
  obtain ⟨u0, us, hsb⟩ : ∃ u0 us, splitTab (pyRstrip b) = u0 :: us := by
    cases hsb : splitTab (pyRstrip b) with
    | nil => exact absurd hsb (splitTab_ne_nil _)
    | cons u0 us => exact ⟨u0, us, rfl⟩
  have ha0 : firstField a = s0 := by simp [firstField, hsa]
  have hb0 : firstField b = u0 := by simp [firstField, hsb]
  constructor
  · intro heq
    have hus : u0 = s0 := by rw [← ha0, ← hb0, heq]
    unfold join_header_table
    rw [hflat, join_check_cons a [b] [] s0 ss hsa, if_neg (by simp),
      join_check_cons b [] [s0] u0 us hsb, if_pos (by simp [hus]), ha0, ← hus]
  · intro hne
    have hus : u0 ≠ s0 := by
      rw [← ha0, ← hb0]
      exact fun h => hne (h ▸ rfl)
    unfold join_header_table
    rw [hflat, join_check_cons a [b] [] s0 ss hsa, if_neg (by simp),
      join_check_cons b [] [s0] u0 us hsb, if_neg (by simp [hus])]
    rfl

theorem join_check_compares_first_field_only_witness :
    (firstField "h\tc1\te\t5".toList = firstField "h\tc2\tf\t6".toList ∧
      join_header_table [["h\tc1\te\t5".toList, "h\tc2\tf\t6".toList]] =
        .error (.runtimeError (dupMsg (firstField "h\tc1\te\t5".toList)))) ∧
    (firstField "h\tc1\te\t5".toList ≠ firstField "g\tc1\te\t5".toList ∧
      join_header_table [["h\tc1\te\t5".toList, "g\tc1\te\t5".toList]] =
        .ok ["h\tc1\te\t5".toList, "g\tc1\te\t5".toList]) :=
  ⟨⟨by decide, (join_check_compares_first_field_only "h\tc1\te\t5".toList
      "h\tc2\tf\t6".toList).1 (by decide)⟩,
    ⟨by decide, (join_check_compares_first_field_only "h\tc1\te\t5".toList
      "g\tc1\te\t5".toList).2 (by decide)⟩⟩

theorem make_one_header_table_length (records : List Record) (event cb : List Char)
    (occ : Option Int) (ca : List Char) (t : List (List Char))
    (h : make_one_header_table records event cb occ ca = .ok t) :
    t.length = records.length := by
  induction records generalizing t with
  | nil =>
    unfold make_one_header_table at h
    cases h
    rfl
  | cons r rs ih =>
    unfold make_one_header_table at h
    cases hcut : (if cb ≠ [] ∨ ca ≠ [] then cut_header r.description cb occ ca
      else .ok r.description) with
    | error e =>
      rw [hcut] at h
      cases h
    | ok header =>
      rw [hcut] at h
      cases hrec : make_one_header_table rs event cb occ ca with
      | error e =>
        rw [hrec] at h
        cases h
      | ok rest =>
        rw [hrec] at h
        cases h
        simp [ih rest hrec]

theorem make_all_tables_length_sum (samples : List (List Record × List Char))
    (cb : List Char) (occ : Option Int) (ca : List Char)
    (ts : List (List (List Char)))
    (h : make_all_tables samples cb occ ca = .ok ts) :
    (ts.map List.length).sum = (samples.map (fun s => s.1.length)).sum := by
  induction samples generalizing ts with
  | nil =>
    unfold make_all_tables at h
    cases h
    rfl
  | cons s rest ih =>
    unfold make_all_tables at h
    cases h1 : make_one_header_table s.1 s.2 cb occ ca with
    | error e =>
      rw [h1] at h
      cases h
    | ok t =>
      rw [h1] at h
      cases h2 : make_all_tables rest cb occ ca with
      | error e =>
        rw [h2] at h
        cases h
      | ok tr =>
        rw [h2] at h
        cases h
        simp [make_one_header_table_length s.1 s.2 cb occ ca t h1, ih tr h2]

/-- C9: when every per-sample table build succeeds and no `original_header`
is duplicated across the concatenation, the join succeeds and the joined
table has exactly one row per input record: its row count is the sum of the
samples' record counts. -/
theorem joined_table_row_count (samples : List (List Record × List Char))
    (cb : List Char) (occ : Option Int) (ca : List Char)
    (tables : List (List (List Char)))
    (h1 : make_all_tables samples cb occ ca = .ok tables)
    (hnd : (tables.flatten.map firstField).Nodup) :
    ∃ joined, join_header_table tables = .ok joined ∧
      joined.length = (samples.map (fun s => s.1.length)).sum := by
  refine ⟨tables.flatten, ?_, ?_⟩
  · unfold join_header_table
    rw [join_check_ok tables.flatten [] hnd (by simp)]
  · rw [List.length_flatten, make_all_tables_length_sum samples cb occ ca tables h1]

theorem joined_table_row_count_witness :
    make_all_tables [([⟨"a".toList, 1⟩], "e1".toList), ([⟨"b".toList, 2⟩], "e2".toList)]
        [] none [] =
      .ok [[rowLine "a".toList "a".toList "e1".toList 1],
        [rowLine "b".toList "b".toList "e2".toList 2]] ∧
    (([[rowLine "a".toList "a".toList "e1".toList 1],
        [rowLine "b".toList "b".toList "e2".toList 2]] :
        List (List (List Char))).flatten.map firstField).Nodup ∧
    ∃ joined,
      join_header_table [[rowLine "a".toList "a".toList "e1".toList 1],
        [rowLine "b".toList "b".toList "e2".toList 2]] = .ok joined ∧
      joined.length =
        (([([⟨"a".toList, 1⟩], "e1".toList), ([⟨"b".toList, 2⟩], "e2".toList)] :
          List (List Record × List Char)).map (fun s => s.1.length)).sum :=
  ⟨by decide, by decide,
    joined_table_row_count
      [([⟨"a".toList, 1⟩], "e1".toList), ([⟨"b".toList, 2⟩], "e2".toList)] [] none []
      [[rowLine "a".toList "a".toList "e1".toList 1],
        [rowLine "b".toList "b".toList "e2".toList 2]]
      (by decide) (by decide)⟩
